import Mathlib

/-!
Verification development for the shop-chat-agent repository.

The core pieces modelled here, translated from the JavaScript source:
- the JSON value type and the backend schema filter
  (src/app/services/gemini.server.js, cleanSchemaForGemini);
- the JSON-RPC transport retry logic
  (src/app/mcp-client-enhanced.js, _makeJsonRpcRequestWithRetry);
- the dual-endpoint MCP client state machine
  (src/app/mcp-client-enhanced.js: connectToCustomerServer,
  connectToStorefrontServer, connectToAllServers, callTool, disconnect);
- the conversation orchestrator loop
  (src/app/db-cloudflare.server.js, handleChatSession) together with the
  event streams produced by the Claude and Gemini adapters.

JSON is modelled as a mutual inductive family (values, arrays, objects) so
that all recursive functions over it are structural, executable, and
reducible by the kernel on concrete inputs.
-/

namespace ShopChatAgent

mutual
/-- JSON values as they appear in the JavaScript source.  `null` models both
the JS value null and absent fields where the code treats them alike. -/
inductive Json where
  | str (s : String)
  | num (n : Int)
  | bool (b : Bool)
  | null
  | arr (xs : JArray)
  | obj (kvs : JObject)
deriving Repr

/-- A JSON array, as its own inductive so recursion stays structural. -/
inductive JArray where
  | nil
  | cons (hd : Json) (tl : JArray)
deriving Repr

/-- A JSON object: an ordered sequence of key/value entries (JS objects
preserve insertion order; JSON.parse never produces duplicate keys). -/
inductive JObject where
  | nil
  | cons (key : String) (val : Json) (tl : JObject)
deriving Repr
end

/-- The entries of a JSON array as an ordinary list. -/
def JArray.toList : JArray → List Json
  | .nil => []
  | .cons h t => h :: JArray.toList t

/-- The entries of a JSON object as an ordinary list of pairs. -/
def JObject.toList : JObject → List (String × Json)
  | .nil => []
  | .cons k v t => (k, v) :: JObject.toList t

/-- First-occurrence lookup of a key in a JSON object (a JS property read). -/
def JObject.lookup : JObject → String → Option Json
  | .nil, _ => none
  | .cons k v t, q => if k = q then some v else JObject.lookup t q

/-- Property read `j[q]` on a JSON value: a value for object operands with
the key present, none otherwise. -/
def Json.objLookup : Json → String → Option Json
  | .obj kvs, q => kvs.lookup q
  | _, _ => none

/-- JavaScript truthiness for the JSON values modelled here: null, false,
0 and the empty string are falsy, everything else is truthy. -/
def jsTruthy : Json → Bool
  | .null => false
  | .bool b => b
  | .num n => n != 0
  | .str s => s ≠ ""
  | .arr _ => true
  | .obj _ => true

/-- The result of the JS test `typeof v === 'object'`: true for plain
objects, arrays, and null. -/
def jsTypeofIsObject : Json → Bool
  | .obj _ => true
  | .arr _ => true
  | .null => true
  | _ => false

/-! ## The Gemini schema filter (src/app/services/gemini.server.js) -/

/-- supportedProps from cleanSchemaForGemini (gemini.server.js line 378). -/
def supportedProps : List String :=
  ["type", "description", "properties", "required", "items",
   "enum", "minimum", "maximum", "minLength", "maxLength",
   "pattern", "default", "title", "anyOf", "oneOf", "allOf"]

/-- excludedProps from cleanSchemaForGemini (gemini.server.js line 385). -/
def excludedProps : List String :=
  ["additional_properties", "additionalProperties", "unevaluatedProperties",
   "$schema", "$id", "format"]

/-- The three composition keywords treated specially by the filter. -/
def compositionProps : List String := ["anyOf", "oneOf", "allOf"]

/-- Index-keyed object entries, as produced by Object.entries on a JS
array (the filter reaches this shape when a properties value is an array). -/
def indexEntries (n : Nat) : JArray → JObject
  | .nil => .nil
  | .cons h t => .cons (toString n) h (indexEntries (n + 1) t)

mutual
/-- cleanSchemaForGemini (gemini.server.js lines 368-419).  The guard at
line 369 returns every non-object operand (including arrays and null)
unchanged; only plain objects are filtered.  `none` models the one
reachable throw: Object.entries applied to a null properties value. -/
def cleanSchemaForGemini : Json → Option Json
  | .obj kvs => (cleanEntries kvs).map Json.obj
  | s => some s

/-- The entry loop of cleanSchemaForGemini (lines 390-415): excluded keys
are dropped, supported keys are kept with the per-key handling of lines
396-411 (the function `cleanValue` below), all other keys are dropped. -/
def cleanEntries : JObject → Option JObject
  | .nil => some .nil
  | .cons k v rest =>
    if excludedProps.contains k then
      cleanEntries rest
    else if supportedProps.contains k then
      match cleanValue k v, cleanEntries rest with
      | some v2, some tail => some (.cons k v2 tail)
      | _, _ => none
    else
      cleanEntries rest

/-- The per-key value handling of cleanSchemaForGemini (lines 396-411):
recursive descent for properties, items and the composition keywords,
verbatim copy for every other supported keyword.  For structural
termination the recursion is split per constructor of the value; the
theorem `cleanValue_spec` below re-establishes the exact if/else chain of
the source. -/
def cleanValue : String → Json → Option Json
  | k, .obj ps =>
    if k = "properties" then (cleanPairs ps).map Json.obj
    else if k = "items" then (cleanEntries ps).map Json.obj
    else some (.obj ps)
  | k, .arr xs =>
    if k = "properties" then
      (cleanArr xs).map (fun ys => Json.obj (indexEntries 0 ys))
    else if k = "items" then some (.arr xs)
    else if compositionProps.contains k then (cleanArr xs).map Json.arr
    else some (.arr xs)
  | k, .null =>
    if k = "properties" then none
    else some .null
  | _, v => some v

/-- Recursive cleaning of the values of a properties map (line 401). -/
def cleanPairs : JObject → Option JObject
  | .nil => some .nil
  | .cons k v rest =>
    match cleanSchemaForGemini v, cleanPairs rest with
    | some v2, some tail => some (.cons k v2 tail)
    | _, _ => none

/-- Recursive cleaning of the elements of a schema list (line 408, also
used for the array form of a properties value). -/
def cleanArr : JArray → Option JArray
  | .nil => some .nil
  | .cons x rest =>
    match cleanSchemaForGemini x, cleanArr rest with
    | some y, some tail => some (.cons y tail)
    | _, _ => none
end

/-- `cleanValue` is exactly the if/else chain of gemini.server.js lines
396-411: the properties branch (guarded by a typeof-object test, throwing
on null), the items branch (a plain recursive call), the composition
branch (mapping the recursive call when the value is an array), and the
verbatim-copy default. -/
theorem cleanValue_spec (k : String) (v : Json) :
    cleanValue k v =
      if k = "properties" && jsTypeofIsObject v then
        match v with
        | .obj ps => (cleanPairs ps).map Json.obj
        | .arr xs => (cleanArr xs).map (fun ys => Json.obj (indexEntries 0 ys))
        | _ => none
      else if k = "items" then
        cleanSchemaForGemini v
      else if compositionProps.contains k then
        match v with
        | .arr xs => (cleanArr xs).map Json.arr
        | _ => some v
      else
        some v := by
  have hpi : "properties" ≠ "items" := by decide
  have hpc : compositionProps.contains "properties" = false := by decide
  have hic : compositionProps.contains "items" = false := by decide
  cases v <;> by_cases h1 : k = "properties" <;> by_cases h2 : k = "items" <;>
    simp_all [cleanValue, cleanSchemaForGemini, jsTypeofIsObject]

/-- The cons equation of the entry loop, phrased through `cleanValue`. -/
theorem cleanEntries_cons (k : String) (v : Json) (rest : JObject) :
    cleanEntries (.cons k v rest) =
      if excludedProps.contains k then
        cleanEntries rest
      else if supportedProps.contains k then
        match cleanValue k v, cleanEntries rest with
        | some v2, some tail => some (.cons k v2 tail)
        | _, _ => none
      else
        cleanEntries rest := rfl

/-- The supported keywords whose values the filter copies verbatim (all
supported keywords except properties, items and the composition ones). -/
def directCopyProps : List String :=
  ["type", "description", "required", "enum", "minimum", "maximum",
   "minLength", "maxLength", "pattern", "default", "title"]

/-- `BadKey key s` holds when `key` occurs as a schema keyword somewhere in
the schema `s`: as a key of the top-level object, or recursively inside a
nested property schema, an items value, a composition branch, or an
element of an array of schemas. -/
inductive BadKey (key : String) : Json → Prop where
  | here {kvs : JObject} {v : Json} :
      (key, v) ∈ kvs.toList → BadKey key (.obj kvs)
  | viaProp {kvs ps : JObject} {pk : String} {pv : Json} :
      ("properties", Json.obj ps) ∈ kvs.toList → (pk, pv) ∈ ps.toList →
      BadKey key pv → BadKey key (.obj kvs)
  | viaItems {kvs : JObject} {iv : Json} :
      ("items", iv) ∈ kvs.toList → BadKey key iv → BadKey key (.obj kvs)
  | viaComp {kvs : JObject} {c : String} {xs : JArray} {x : Json} :
      c ∈ compositionProps → (c, Json.arr xs) ∈ kvs.toList →
      x ∈ xs.toList → BadKey key x → BadKey key (.obj kvs)
  | inArr {xs : JArray} {x : Json} :
      x ∈ xs.toList → BadKey key x → BadKey key (.arr xs)

mutual
/-- Schemas on which the filter's recursion reaches every schema position:
the value of every items keyword is a single schema (not an array of
schemas), and the value of every properties keyword is an object (or a
scalar, which the filter copies).  Top-level arrays are excluded because
the filter returns them unchanged. -/
def safeJson : Json → Bool
  | .obj kvs => safeEntries kvs
  | .arr _ => false
  | _ => true

/-- Entry-wise safety for the keywords the filter recurses into. -/
def safeEntries : JObject → Bool
  | .nil => true
  | .cons k v rest => safeEntry k v && safeEntries rest

/-- Safety of one object entry; keys the filter drops or copies opaquely
are unconstrained except for the recursion-carrying shapes. -/
def safeEntry : String → Json → Bool
  | k, .obj ps =>
    if k = "properties" then safePairs ps
    else if k = "items" then safeEntries ps
    else true
  | k, .arr xs =>
    if k = "properties" then false
    else if k = "items" then false
    else if compositionProps.contains k then safeArrAll xs
    else true
  | k, .null => decide (k ≠ "properties")
  | _, _ => true

/-- Safety of every value of a properties map. -/
def safePairs : JObject → Bool
  | .nil => true
  | .cons _ v rest => safeJson v && safePairs rest

/-- Safety of every element of a composition list. -/
def safeArrAll : JArray → Bool
  | .nil => true
  | .cons x rest => safeJson x && safeArrAll rest
end

/-- No excluded keyword coincides with a supported keyword. -/
theorem excluded_not_supported :
    ∀ k, k ∈ excludedProps → supportedProps.contains k = false := by
  decide

/-- The verbatim-copy keywords are supported and are none of the
recursion-carrying keywords. -/
theorem directCopy_facts :
    ∀ k, k ∈ directCopyProps →
      supportedProps.contains k = true ∧ excludedProps.contains k = false ∧
      k ≠ "properties" ∧ k ≠ "items" ∧ compositionProps.contains k = false := by
  decide

/-- On a verbatim-copy keyword the filter keeps the value unchanged. -/
theorem cleanValue_directCopy (k : String) (hk : k ∈ directCopyProps)
    (v : Json) : cleanValue k v = some v := by
  obtain ⟨-, -, h1, h2, h3⟩ := directCopy_facts k hk
  have h4 : k ∉ compositionProps := by simpa using h3
  cases v <;> simp [cleanValue, h1, h2, h3, h4]

/-- On the items keyword the filter is a plain recursive call. -/
theorem cleanValue_items (v : Json) :
    cleanValue "items" v = cleanSchemaForGemini v := by
  cases v <;> rfl

/-- A safe items value is itself a safe schema. -/
theorem safeEntry_items {v : Json} (h : safeEntry "items" v = true) :
    safeJson v = true := by
  cases v <;> simp_all [safeEntry, safeJson]

/-- Composition keywords are neither properties nor items. -/
theorem comp_facts :
    ∀ c, c ∈ compositionProps → c ≠ "properties" ∧ c ≠ "items" := by
  decide

mutual
/-- After filtering a safe schema, no excluded keyword occurs at any
schema position of the output. -/
theorem clean_noBadKey :
    ∀ (s : Json), safeJson s = true → ∀ t, cleanSchemaForGemini s = some t →
      ∀ k, k ∈ excludedProps → ¬ BadKey k t
  | .obj kvs => by
    intro hs t hc
    simp only [cleanSchemaForGemini, Option.map_eq_some'] at hc
    obtain ⟨l, hl, rfl⟩ := hc
    exact cleanEntries_noBadKey kvs (by simpa [safeJson] using hs) l hl
  | .arr xs => by intro hs; simp [safeJson] at hs
  | .str s => by
    intro _ t hc k hk bk
    simp only [cleanSchemaForGemini, Option.some.injEq] at hc
    subst hc; cases bk
  | .num n => by
    intro _ t hc k hk bk
    simp only [cleanSchemaForGemini, Option.some.injEq] at hc
    subst hc; cases bk
  | .bool b => by
    intro _ t hc k hk bk
    simp only [cleanSchemaForGemini, Option.some.injEq] at hc
    subst hc; cases bk
  | .null => by
    intro _ t hc k hk bk
    simp only [cleanSchemaForGemini, Option.some.injEq] at hc
    subst hc; cases bk

/-- Entry-loop companion of `clean_noBadKey`. -/
theorem cleanEntries_noBadKey :
    ∀ (kvs : JObject), safeEntries kvs = true →
      ∀ l, cleanEntries kvs = some l → ∀ k, k ∈ excludedProps →
        ¬ BadKey k (.obj l)
  | .nil => by
    intro _ l hc k hk bk
    simp only [cleanEntries, Option.some.injEq] at hc
    subst hc
    cases bk <;> simp_all [JObject.toList]
  | .cons k0 v0 rest => by
    intro hs l hc k hk
    rw [cleanEntries_cons] at hc
    have hse : safeEntry k0 v0 = true ∧ safeEntries rest = true := by
      simpa [safeEntries, Bool.and_eq_true] using hs
    by_cases hex : excludedProps.contains k0 = true
    · simp only [hex, if_true] at hc
      exact cleanEntries_noBadKey rest hse.2 l hc k hk
    · by_cases hsup : supportedProps.contains k0 = true
      · simp only [hex, hsup, if_false, if_true, Bool.false_eq_true] at hc
        cases hv : cleanValue k0 v0 with
        | none => simp [hv] at hc
        | some v2 =>
          cases ht : cleanEntries rest with
          | none => simp [hv, ht] at hc
          | some tail =>
            simp only [hv, ht, Option.some.injEq] at hc
            subst hc
            have IHrest := cleanEntries_noBadKey rest hse.2 tail ht
            intro bk
            cases bk with
            | @here _ w hm =>
              simp only [JObject.toList] at hm
              rcases List.mem_cons.mp hm with hh | htl
              · rw [Prod.mk.injEq] at hh
                have hns := excluded_not_supported k hk
                rw [hh.1] at hns
                exact absurd hsup (by simpa using hns)
              · exact IHrest k hk (BadKey.here htl)
            | @viaProp _ ps3 pk1 pv1 hm hpm bkv =>
              simp only [JObject.toList] at hm
              rcases List.mem_cons.mp hm with hh | htl
              · rw [Prod.mk.injEq] at hh
                obtain ⟨hk0p, hv2⟩ := hh
                subst hk0p
                cases v0 with
                | obj ps =>
                  have hsafe : safePairs ps = true := by
                    simpa [safeEntry] using hse.1
                  rw [show cleanValue "properties" (.obj ps)
                        = (cleanPairs ps).map Json.obj from rfl,
                      Option.map_eq_some'] at hv
                  obtain ⟨ps2, hps2, hv2eq⟩ := hv
                  have hpseq : ps2 = ps3 := by
                    injection hv2eq.trans hv2.symm
                  rw [← hpseq] at hpm
                  exact cleanPairs_noBadKey ps hsafe ps2 hps2 pk1 pv1 hpm k hk bkv
                | arr xs => simp [safeEntry] at hse
                | null => simp [safeEntry] at hse
                | str s =>
                  rw [show cleanValue "properties" (.str s)
                    = some (.str s) from rfl] at hv
                  injection hv with hveq
                  rw [← hv2] at hveq
                  exact Json.noConfusion hveq
                | num n =>
                  rw [show cleanValue "properties" (.num n)
                    = some (.num n) from rfl] at hv
                  injection hv with hveq
                  rw [← hv2] at hveq
                  exact Json.noConfusion hveq
                | bool b =>
                  rw [show cleanValue "properties" (.bool b)
                    = some (.bool b) from rfl] at hv
                  injection hv with hveq
                  rw [← hv2] at hveq
                  exact Json.noConfusion hveq
              · exact IHrest k hk (BadKey.viaProp htl hpm bkv)
            | @viaItems _ iv hm bkv =>
              simp only [JObject.toList] at hm
              rcases List.mem_cons.mp hm with hh | htl
              · rw [Prod.mk.injEq] at hh
                obtain ⟨hk0i, hv2⟩ := hh
                subst hk0i
                rw [cleanValue_items] at hv
                rw [← hv2] at hv
                exact clean_noBadKey v0 (safeEntry_items hse.1) iv hv k hk bkv
              · exact IHrest k hk (BadKey.viaItems htl bkv)
            | @viaComp _ c xs3 x hcm hm hxm bkx =>
              simp only [JObject.toList] at hm
              rcases List.mem_cons.mp hm with hh | htl
              · rw [Prod.mk.injEq] at hh
                obtain ⟨hk0c, hv2⟩ := hh
                obtain ⟨hc1, hc2⟩ := comp_facts _ hcm
                rw [hk0c] at hcm hc1 hc2
                have hccont : compositionProps.contains k0 = true := by
                  simpa using hcm
                cases v0 with
                | arr xs =>
                  have hsafe : safeArrAll xs = true := by
                    have h := hse.1
                    rw [show safeEntry k0 (.arr xs)
                          = if k0 = "properties" then false
                            else if k0 = "items" then false
                            else if compositionProps.contains k0 then safeArrAll xs
                            else true from rfl,
                        if_neg hc1, if_neg hc2, if_pos hccont] at h
                    exact h
                  rw [show cleanValue k0 (.arr xs)
                        = if k0 = "properties" then
                            (cleanArr xs).map (fun ys => Json.obj (indexEntries 0 ys))
                          else if k0 = "items" then some (.arr xs)
                          else if compositionProps.contains k0 then
                            (cleanArr xs).map Json.arr
                          else some (.arr xs) from rfl,
                      if_neg hc1, if_neg hc2, if_pos hccont,
                      Option.map_eq_some'] at hv
                  obtain ⟨ys, hys, hv2eq⟩ := hv
                  have hyseq : ys = xs3 := by
                    injection hv2eq.trans hv2.symm
                  rw [← hyseq] at hxm
                  exact cleanArr_noBadKey xs hsafe ys hys x hxm k hk bkx
                | obj ps =>
                  rw [show cleanValue k0 (.obj ps)
                        = if k0 = "properties" then (cleanPairs ps).map Json.obj
                          else if k0 = "items" then (cleanEntries ps).map Json.obj
                          else some (.obj ps) from rfl,
                      if_neg hc1, if_neg hc2] at hv
                  injection hv with hveq
                  rw [← hv2] at hveq
                  exact Json.noConfusion hveq
                | null =>
                  rw [show cleanValue k0 .null
                        = if k0 = "properties" then none else some .null from rfl,
                      if_neg hc1] at hv
                  injection hv with hveq
                  rw [← hv2] at hveq
                  exact Json.noConfusion hveq
                | str s =>
                  rw [show cleanValue k0 (.str s)
                    = some (.str s) from rfl] at hv
                  injection hv with hveq
                  rw [← hv2] at hveq
                  exact Json.noConfusion hveq
                | num n =>
                  rw [show cleanValue k0 (.num n)
                    = some (.num n) from rfl] at hv
                  injection hv with hveq
                  rw [← hv2] at hveq
                  exact Json.noConfusion hveq
                | bool b =>
                  rw [show cleanValue k0 (.bool b)
                    = some (.bool b) from rfl] at hv
                  injection hv with hveq
                  rw [← hv2] at hveq
                  exact Json.noConfusion hveq
              · exact IHrest k hk (BadKey.viaComp hcm htl hxm bkx)
      · simp only [hex, hsup, if_false, Bool.false_eq_true] at hc
        exact cleanEntries_noBadKey rest hse.2 l hc k hk

/-- Properties-map companion of `clean_noBadKey`. -/
theorem cleanPairs_noBadKey :
    ∀ (ps : JObject), safePairs ps = true →
      ∀ l, cleanPairs ps = some l → ∀ pk pv, (pk, pv) ∈ l.toList →
        ∀ k, k ∈ excludedProps → ¬ BadKey k pv
  | .nil => by
    intro _ l hc pk pv hm
    simp only [cleanPairs, Option.some.injEq] at hc
    subst hc
    simp [JObject.toList] at hm
  | .cons pk0 pv0 rest => by
    intro hs l hc pk pv hm k hk
    have hse : safeJson pv0 = true ∧ safePairs rest = true := by
      simpa [safePairs, Bool.and_eq_true] using hs
    simp only [cleanPairs] at hc
    cases hv : cleanSchemaForGemini pv0 with
    | none => simp [hv] at hc
    | some v2 =>
      cases ht : cleanPairs rest with
      | none => simp [hv, ht] at hc
      | some tail =>
        simp only [hv, ht, Option.some.injEq] at hc
        subst hc
        simp only [JObject.toList] at hm
        rcases List.mem_cons.mp hm with hh | htl
        · rw [Prod.mk.injEq] at hh
          rw [hh.2]
          exact clean_noBadKey pv0 hse.1 v2 hv k hk
        · exact cleanPairs_noBadKey rest hse.2 tail ht pk pv htl k hk

/-- Schema-list companion of `clean_noBadKey`. -/
theorem cleanArr_noBadKey :
    ∀ (xs : JArray), safeArrAll xs = true →
      ∀ ys, cleanArr xs = some ys → ∀ y, y ∈ ys.toList →
        ∀ k, k ∈ excludedProps → ¬ BadKey k y
  | .nil => by
    intro _ ys hc y hm
    simp only [cleanArr, Option.some.injEq] at hc
    subst hc
    simp [JArray.toList] at hm
  | .cons x rest => by
    intro hs ys hc y hm k hk
    have hse : safeJson x = true ∧ safeArrAll rest = true := by
      simpa [safeArrAll, Bool.and_eq_true] using hs
    simp only [cleanArr] at hc
    cases hv : cleanSchemaForGemini x with
    | none => simp [hv] at hc
    | some y2 =>
      cases ht : cleanArr rest with
      | none => simp [hv, ht] at hc
      | some tail =>
        simp only [hv, ht, Option.some.injEq] at hc
        subst hc
        simp only [JArray.toList] at hm
        rcases List.mem_cons.mp hm with hh | htl
        · rw [hh]
          exact clean_noBadKey x hse.1 y2 hv k hk
        · exact cleanArr_noBadKey rest hse.2 tail ht y htl k hk
end

/-- The filter preserves first-occurrence lookups of every verbatim-copy
keyword: removed entries never carry such a key, kept ones are copied. -/
theorem cleanEntries_lookup :
    ∀ (kvs : JObject) (l : JObject), cleanEntries kvs = some l →
      ∀ q, q ∈ directCopyProps → l.lookup q = kvs.lookup q
  | .nil => by
    intro l hc q hq
    simp only [cleanEntries, Option.some.injEq] at hc
    subst hc
    rfl
  | .cons k0 v0 rest => by
    intro l hc q hq
    obtain ⟨hqs, hqe, -, -, -⟩ := directCopy_facts q hq
    rw [cleanEntries_cons] at hc
    by_cases hex : excludedProps.contains k0 = true
    · have hne : k0 ≠ q := by
        intro h
        rw [h] at hex
        rw [hqe] at hex
        exact Bool.false_ne_true hex
      simp only [hex, if_true] at hc
      simp only [JObject.lookup, if_neg hne]
      exact cleanEntries_lookup rest l hc q hq
    · by_cases hsup : supportedProps.contains k0 = true
      · simp only [hex, hsup, if_false, if_true, Bool.false_eq_true] at hc
        cases hv : cleanValue k0 v0 with
        | none => simp [hv] at hc
        | some v2 =>
          cases ht : cleanEntries rest with
          | none => simp [hv, ht] at hc
          | some tail =>
            simp only [hv, ht, Option.some.injEq] at hc
            subst hc
            by_cases heq : k0 = q
            · subst heq
              have h2 := cleanValue_directCopy k0 hq v0
              rw [h2] at hv
              injection hv with hv
              simp [JObject.lookup, hv]
            · simp only [JObject.lookup, if_neg heq]
              exact cleanEntries_lookup rest tail ht q hq
      · have hne : k0 ≠ q := by
          intro h
          rw [h] at hsup
          rw [hqs] at hsup
          exact hsup rfl
        simp only [hex, hsup, if_false, Bool.false_eq_true] at hc
        simp only [JObject.lookup, if_neg hne]
        exact cleanEntries_lookup rest l hc q hq

/-- The element schema of the C8 counterexample: it carries the excluded
keyword format. -/
def c8Inner : JObject :=
  .cons "type" (.str "string") (.cons "format" (.str "email") .nil)

/-- A schema whose items value is an array of schemas (the tuple form of
items), with an excluded keyword inside the element schema. -/
def c8Schema : Json :=
  .obj (.cons "type" (.str "array")
    (.cons "items" (.arr (.cons (.obj c8Inner) .nil)) .nil))

/-- C8 counterexample: the claim says no unsupported keyword remains
anywhere in the filtered output, including inside array item schemas.  On
`c8Schema` the filter returns the input unchanged (the guard at
gemini.server.js line 369 returns arrays as-is, so an items value that is
an array of schemas is never descended into), and the excluded keyword
`format` survives at a schema position of the output. -/
theorem C8_counterexample :
    cleanSchemaForGemini c8Schema = some c8Schema ∧
    "format" ∈ excludedProps ∧
    BadKey "format" c8Schema := by
  refine ⟨rfl, by decide, ?_⟩
  have hbad1 : BadKey "format" (.obj c8Inner) :=
    @BadKey.here "format" c8Inner (.str "email")
      (by simp [c8Inner, JObject.toList])
  have hbad2 : BadKey "format" (.arr (.cons (.obj c8Inner) .nil)) :=
    BadKey.inArr (by simp [JArray.toList]) hbad1
  have hmem : ("items", Json.arr (.cons (.obj c8Inner) .nil))
      ∈ (JObject.cons "type" (.str "array")
          (.cons "items" (.arr (.cons (.obj c8Inner) .nil)) .nil)).toList := by
    simp [JObject.toList]
  exact BadKey.viaItems hmem hbad2

/-- Claim C8 (amended): for every tool input schema in which each items
value is a single schema (not the array form) and each properties value is
an object map, the backend schema filter removes every unsupported keyword
recursively - no excluded keyword remains at any schema position of the
output - and the values of the verbatim-copy supported keywords (type,
description, required, enum, numeric and string bounds, pattern, default,
title) are preserved unchanged, as first-occurrence lookups. -/
theorem C8_schema_filter (s : Json) (hs : safeJson s = true)
    (t : Json) (ht : cleanSchemaForGemini s = some t) :
    (∀ k, k ∈ excludedProps → ¬ BadKey k t) ∧
    (∀ q, q ∈ directCopyProps → t.objLookup q = s.objLookup q) := by
  refine ⟨clean_noBadKey s hs t ht, ?_⟩
  cases s with
  | obj kvs =>
    intro q hq
    simp only [cleanSchemaForGemini, Option.map_eq_some'] at ht
    obtain ⟨l, hl, rfl⟩ := ht
    simp only [Json.objLookup]
    exact cleanEntries_lookup kvs l hl q hq
  | arr xs => simp [safeJson] at hs
  | str ss =>
    simp only [cleanSchemaForGemini, Option.some.injEq] at ht
    subst ht
    intro q hq
    rfl
  | num n =>
    simp only [cleanSchemaForGemini, Option.some.injEq] at ht
    subst ht
    intro q hq
    rfl
  | bool b =>
    simp only [cleanSchemaForGemini, Option.some.injEq] at ht
    subst ht
    intro q hq
    rfl
  | null =>
    simp only [cleanSchemaForGemini, Option.some.injEq] at ht
    subst ht
    intro q hq
    rfl

/-- A safe nested schema: an object with a property whose schema carries
both supported keywords and the excluded keywords format and
additionalProperties. -/
def c8SafeSchema : Json :=
  .obj (.cons "type" (.str "object")
    (.cons "properties"
      (.obj (.cons "name"
        (.obj (.cons "type" (.str "string")
          (.cons "format" (.str "email")
            (.cons "additionalProperties" (.bool false) .nil))))
        .nil))
      .nil))

/-- The filter output on `c8SafeSchema`: the nested format and
additionalProperties keywords are gone, everything else is kept. -/
def c8SafeCleaned : Json :=
  .obj (.cons "type" (.str "object")
    (.cons "properties"
      (.obj (.cons "name"
        (.obj (.cons "type" (.str "string") .nil))
        .nil))
      .nil))

/-- Witness for C8: the amended theorem applied at a concrete nested
schema, with both hypotheses discharged by evaluation. -/
theorem C8_schema_filter_witness :
    safeJson c8SafeSchema = true ∧
    cleanSchemaForGemini c8SafeSchema = some c8SafeCleaned ∧
    ¬ BadKey "format" c8SafeCleaned ∧
    Json.objLookup c8SafeCleaned "type" = Json.objLookup c8SafeSchema "type" := by
  refine ⟨rfl, rfl, ?_, ?_⟩
  · exact (C8_schema_filter c8SafeSchema rfl c8SafeCleaned rfl).1 "format"
      (by decide)
  · exact (C8_schema_filter c8SafeSchema rfl c8SafeCleaned rfl).2 "type"
      (by decide)

/-! ## The JSON-RPC transport (src/app/mcp-client-enhanced.js) -/

/-- The classified failures a single _makeJsonRpcRequest attempt can throw
(lines 137-187): an HTTP error status (line 161, the error carries
response.status), a well-formed JSON-RPC error object (line 170, the error
carries the code), or a transport-level failure (a network failure or the
timeout of line 182). -/
inductive CallErr where
  | http (status : Nat) (text : String)
  | rpc (code : Int) (msg : String)
  | transport (msg : String)
deriving DecidableEq, Repr

/-- The message string carried by each thrown error, as the source builds
it (lines 161, 171, and the transport message itself). -/
def CallErr.message : CallErr → String
  | .http status text => "Request failed: " ++ toString status ++ " " ++ text
  | .rpc _ msg => "JSON-RPC Error: " ++ msg
  | .transport msg => msg

/-- The recursion of _makeJsonRpcRequestWithRetry (lines 115-132), written
structurally on the number of retries still allowed
(`remaining = retryAttempts - attempt`).  `attemptResult k` is the outcome
of the k-th call of _makeJsonRpcRequest; any thrown error is caught, and
while a retry is allowed the code waits retryDelay * attempt and recurses
with attempt + 1.  The returned list records the waits, in order.  The
theorem `retryLoop_eq` below re-establishes the exact shape of the source
recursion (`attempt < this.options.retryAttempts`). -/
def retryLoop (attemptResult : Nat → Except CallErr Json) (retryDelay : Nat) :
    Nat → Nat → Except CallErr Json × List Nat
  | attempt, remaining =>
    match attemptResult attempt, remaining with
    | .ok r, _ => (.ok r, [])
    | .error e, 0 => (.error e, [])
    | .error _, rem + 1 =>
      let next := retryLoop attemptResult retryDelay (attempt + 1) rem
      (next.1, retryDelay * attempt :: next.2)

/-- _makeJsonRpcRequestWithRetry (lines 115-132) as called by the client:
the first attempt is number 1, and the recursion stops retrying once
`attempt < retryAttempts` fails. -/
def makeJsonRpcRequestWithRetry (attemptResult : Nat → Except CallErr Json)
    (retryAttempts retryDelay : Nat) : Except CallErr Json × List Nat :=
  retryLoop attemptResult retryDelay 1 (retryAttempts - 1)

/-- `retryLoop` at `remaining = retryAttempts - attempt` satisfies exactly
the recursion written in the source: return the attempt result, and on a
thrown error retry with delay retryDelay * attempt while
attempt < retryAttempts, otherwise rethrow. -/
theorem retryLoop_eq (f : Nat → Except CallErr Json)
    (retryAttempts retryDelay attempt : Nat) :
    retryLoop f retryDelay attempt (retryAttempts - attempt) =
      match f attempt with
      | .ok r => (.ok r, [])
      | .error e =>
        if attempt < retryAttempts then
          let next := retryLoop f retryDelay (attempt + 1)
            (retryAttempts - (attempt + 1))
          (next.1, retryDelay * attempt :: next.2)
        else (.error e, []) := by
  cases hf : f attempt with
  | ok r => cases hrem : retryAttempts - attempt <;> simp [retryLoop, hf]
  | error e =>
    by_cases hlt : attempt < retryAttempts
    · have h1 : retryAttempts - attempt = (retryAttempts - (attempt + 1)) + 1 := by
        omega
      rw [h1]
      simp [retryLoop, hf, hlt]
    · have h1 : retryAttempts - attempt = 0 := by omega
      rw [h1]
      simp [retryLoop, hf, hlt]

/-- If every attempt from `attempt` before `i` throws and attempt `i`
succeeds within the allowed window, the loop returns the success and has
waited retryDelay * a before each retry, for a from `attempt` up to i-1. -/
theorem retryLoop_ok (f : Nat → Except CallErr Json) (rd : Nat) :
    ∀ (rem attempt i : Nat) (r : Json),
      attempt ≤ i → i ≤ attempt + rem →
      (∀ j, attempt ≤ j → j < i → ∃ e, f j = .error e) → f i = .ok r →
      retryLoop f rd attempt rem =
        (.ok r, (List.range (i - attempt)).map (fun j => rd * (attempt + j)))
  | rem, attempt, i, r => by
    intro hle hwin hfail hok
    by_cases heq : attempt = i
    · subst heq
      simp [retryLoop, hok]
    · have hlt : attempt < i := by omega
      obtain ⟨e, he⟩ := hfail attempt le_rfl hlt
      have hrem : ∃ rem2, rem = rem2 + 1 := by
        refine ⟨rem - 1, ?_⟩
        omega
      obtain ⟨rem2, rfl⟩ := hrem
      have IH := retryLoop_ok f rd rem2 (attempt + 1) i r (by omega) (by omega)
        (fun j h1 h2 => hfail j (by omega) h2) hok
      have hsucc : i - attempt = (i - (attempt + 1)) + 1 := by omega
      have hlist : (List.range (i - attempt)).map (fun j => rd * (attempt + j))
          = rd * attempt ::
            (List.range (i - (attempt + 1))).map (fun j => rd * (attempt + 1 + j)) := by
        rw [hsucc, List.range_succ_eq_map, List.map_cons, List.map_map]
        congr 1
        refine List.map_congr_left (fun j hj => ?_)
        simp only [Function.comp_apply, Nat.succ_eq_add_one]
        ring
      rw [retryLoop.eq_def]
      simp [he, IH, hlist]

/-- If every attempt in the window throws, the loop rethrows the error of
the last attempt, after the full linear-backoff schedule of waits. -/
theorem retryLoop_allfail (f : Nat → Except CallErr Json) (rd : Nat) :
    ∀ (rem attempt : Nat) (e : CallErr),
      (∀ j, attempt ≤ j → j < attempt + rem → ∃ e2, f j = .error e2) →
      f (attempt + rem) = .error e →
      retryLoop f rd attempt rem =
        (.error e, (List.range rem).map (fun j => rd * (attempt + j)))
  | 0, attempt, e => by
    intro _ hlast
    simp only [Nat.add_zero] at hlast
    simp [retryLoop, hlast]
  | rem + 1, attempt, e => by
    intro hfail hlast
    obtain ⟨e1, he1⟩ := hfail attempt le_rfl (by omega)
    have IH := retryLoop_allfail f rd rem (attempt + 1) e
      (fun j h1 h2 => hfail j (by omega) (by omega))
      (by rw [show attempt + 1 + rem = attempt + (rem + 1) from by omega]; exact hlast)
    have hlist : (List.range (rem + 1)).map (fun j => rd * (attempt + j))
        = rd * attempt ::
          (List.range rem).map (fun j => rd * (attempt + 1 + j)) := by
      rw [List.range_succ_eq_map, List.map_cons, List.map_map]
      congr 1
      refine List.map_congr_left (fun j hj => ?_)
      simp only [Function.comp_apply, Nat.succ_eq_add_one]
      ring
    rw [retryLoop.eq_def]
    simp [he1, IH, hlist]

/-- Claim C7: on failures the transport retries with linearly increasing
backoff, waiting retryDelay * attemptNumber before each retry; a transient
failure followed by a success on an attempt within retryAttempts returns
the successful result (after the backoff schedule for the preceding
failed attempts), and a failure persisting through all retryAttempts
attempts surfaces the final error to the caller. -/
theorem C7_retry_backoff (ra rd : Nat) :
    (∀ (f : Nat → Except CallErr Json) (i : Nat) (r : Json),
      1 ≤ i → i ≤ ra →
      (∀ j, 1 ≤ j → j < i → ∃ e, f j = .error e) → f i = .ok r →
      makeJsonRpcRequestWithRetry f ra rd
        = (.ok r, (List.range (i - 1)).map (fun a => rd * (a + 1)))) ∧
    (∀ (f : Nat → Except CallErr Json) (e : CallErr), 1 ≤ ra →
      (∀ j, 1 ≤ j → j < ra → ∃ e2, f j = .error e2) → f ra = .error e →
      makeJsonRpcRequestWithRetry f ra rd
        = (.error e, (List.range (ra - 1)).map (fun a => rd * (a + 1)))) := by
  constructor
  · intro f i r h1 h2 hfail hok
    rw [makeJsonRpcRequestWithRetry,
      retryLoop_ok f rd (ra - 1) 1 i r h1 (by omega) hfail hok]
    refine congrArg _ ?_
    refine List.map_congr_left (fun j hj => ?_)
    ring_nf
  · intro f e hra hfail hlast
    rw [makeJsonRpcRequestWithRetry,
      retryLoop_allfail f rd (ra - 1) 1 e
        (fun j hj1 hj2 => hfail j hj1 (by omega))
        (by rw [show 1 + (ra - 1) = ra from by omega]; exact hlast)]
    refine congrArg _ ?_
    refine List.map_congr_left (fun j hj => ?_)
    ring_nf

/-- Witness for C7: two transport failures then a success, with
retryAttempts 3 and retryDelay 1000 (the source defaults): the call
returns the success after waits of 1000ms and 2000ms. -/
theorem C7_retry_backoff_witness :
    makeJsonRpcRequestWithRetry
      (fun k => if k < 3 then .error (.transport "connection refused")
                else .ok .null) 3 1000
      = (.ok .null, [1000, 2000]) := by
  have h := (C7_retry_backoff 3 1000).1
    (fun k => if k < 3 then .error (.transport "connection refused")
              else .ok .null)
    3 .null (by omega) (by omega)
    (fun j h1 h2 => ⟨.transport "connection refused", by
      have : j < 3 := h2
      simp [this]⟩)
    (by simp)
  simpa using h

/-- The attempt outcomes refuting claim C4: the first attempt receives an
HTTP 500 status, every later attempt succeeds. -/
def c4Attempts : Nat → Except CallErr Json :=
  fun k => if k = 1 then .error (.http 500 "Internal Server Error")
           else .ok (.str "ok")

/-- C4 counterexample: the claim says an HTTP error status is never
retried and propagates to the caller immediately after the first attempt.
With the source defaults (retryAttempts 3, retryDelay 1000) and an HTTP
500 on the first attempt, the code instead waits 1000ms, retries, and
returns the second attempt's success: the catch block of lines 118-131
retries every thrown error, including HTTP-status and JSON-RPC errors. -/
theorem C4_counterexample :
    makeJsonRpcRequestWithRetry c4Attempts 3 1000 = (.ok (.str "ok"), [1000]) := by
  rfl

/-- Claim C4 (amended): HTTP-status errors and JSON-RPC errors thrown by
an attempt are retried exactly like transport failures, up to
retryAttempts total attempts; when every attempt fails, the error of the
final attempt - still carrying the original HTTP status or JSON-RPC error
code - propagates to the caller, so the caller can special-case it. -/
theorem C4_http_rpc_retried (ra rd : Nat) :
    (∀ (f : Nat → Except CallErr Json) (status : Nat) (text : String) (r : Json),
      2 ≤ ra → f 1 = .error (.http status text) → (∀ j, 2 ≤ j → f j = .ok r) →
      (makeJsonRpcRequestWithRetry f ra rd).1 = .ok r) ∧
    (∀ (f : Nat → Except CallErr Json) (errAt : Nat → CallErr), 1 ≤ ra →
      (∀ j, 1 ≤ j → j ≤ ra → f j = .error (errAt j)) →
      (makeJsonRpcRequestWithRetry f ra rd).1 = .error (errAt ra)) := by
  constructor
  · intro f status text r hra h1 hok
    rw [makeJsonRpcRequestWithRetry,
      retryLoop_ok f rd (ra - 1) 1 2 r (by omega) (by omega)
      (fun j hj1 hj2 => ⟨.http status text, by
        rw [show j = 1 from by omega]
        exact h1⟩)
      (hok 2 le_rfl)]
  · intro f errAt hra hfail
    rw [makeJsonRpcRequestWithRetry,
      retryLoop_allfail f rd (ra - 1) 1 (errAt ra)
      (fun j hj1 hj2 => ⟨errAt j, hfail j hj1 (by omega)⟩)
      (by rw [show 1 + (ra - 1) = ra from by omega]
          exact hfail ra hra le_rfl)]

/-- Witness for C4 (amended): a persistent JSON-RPC error with code
-32600 on every attempt surfaces after the final attempt with its code
intact, and the HTTP-500-then-success outcomes return the success. -/
theorem C4_http_rpc_retried_witness :
    (makeJsonRpcRequestWithRetry c4Attempts 3 1000).1 = .ok (.str "ok") ∧
    (makeJsonRpcRequestWithRetry
      (fun _ => .error (.rpc (-32600) "Invalid Request")) 3 1000).1
      = .error (.rpc (-32600) "Invalid Request") := by
  constructor
  · exact (C4_http_rpc_retried 3 1000).1 c4Attempts 500 "Internal Server Error"
      (.str "ok") (by omega) rfl
      (fun j hj => by
        have : j ≠ 1 := by omega
        simp [c4Attempts, this])
  · exact (C4_http_rpc_retried 3 1000).2
      (fun _ => .error (.rpc (-32600) "Invalid Request"))
      (fun _ => .rpc (-32600) "Invalid Request")
      (by omega) (fun j hj1 hj2 => rfl)

/-! ## The dual-endpoint MCP client (src/app/mcp-client-enhanced.js) -/

/-- The shape of a tool kept in the client registries (lines 464-472). -/
structure Tool where
  name : String
  description : String
  input_schema : Json
deriving Repr

/-- A raw tool entry of a tools/list response: the schema may arrive under
either field name (line 469), or be absent. -/
structure RawTool where
  name : String
  description : String
  inputSchema : Option Json
  input_schema : Option Json
deriving Repr

/-- The JS expression `a || b` over two possibly-absent JSON fields:
the first operand when truthy, otherwise the second (absent modelled as
null, which is what later reads observe for undefined here). -/
def jsOrField (a b : Option Json) : Json :=
  let av := a.getD .null
  if jsTruthy av then av else b.getD .null

/-- _formatToolsData (lines 464-472). -/
def formatToolsData (toolsData : List RawTool) : List Tool :=
  toolsData.map (fun t =>
    { name := t.name, description := t.description,
      input_schema := jsOrField t.inputSchema t.input_schema })

/-- Per-endpoint connection state (lines 43-46 and the
updateConnectionState calls; the source strings are disconnected,
connecting, ready, requires-auth, failed). -/
inductive ConnState where
  | disconnected
  | connecting
  | ready
  | requiresAuth
  | failed
deriving DecidableEq, Repr

/-- The mutable fields of an EnhancedMCPClient instance that the claims
concern: the three tool lists, the two connection states, and the cached
customer access token (constructor, lines 18-54). -/
structure ClientState where
  tools : List Tool
  customerTools : List Tool
  storefrontTools : List Tool
  storefrontState : ConnState
  customerState : ConnState
  customerAccessToken : String
deriving Repr

/-- A freshly constructed client (lines 19-46). -/
def mkClient : ClientState :=
  { tools := [], customerTools := [], storefrontTools := [],
    storefrontState := .disconnected, customerState := .disconnected,
    customerAccessToken := "" }

/-- The response handling shared by a successful customer tools/list
(lines 216-236): extract result.tools with an empty-list fallback, format,
store, rebuild the merged list, mark ready; a thrown request error is
caught at line 237: mark failed and return an empty list, without
throwing. -/
def connectCustomerRequest (outcome : Except CallErr (Option (List RawTool)))
    (s : ClientState) : ClientState × List Tool :=
  match outcome with
  | .ok toolsData =>
    let customerTools := formatToolsData (toolsData.getD [])
    ({ s with customerTools := customerTools,
              tools := s.storefrontTools ++ customerTools,
              customerState := .ready }, customerTools)
  | .error _ => ({ s with customerState := .failed }, [])

/-- connectToCustomerServer (lines 192-246).  `hasConversationId` is the
truthiness of this.conversationId; `dbToken` is the stored token row, with
the empty string modelling a row whose accessToken is falsy; `outcome` is
the final result of the retried tools/list request. -/
def connectToCustomerServer (hasConversationId : Bool)
    (dbToken : Option String)
    (outcome : Except CallErr (Option (List RawTool)))
    (s : ClientState) : ClientState × List Tool :=
  let s1 := { s with customerState := ConnState.connecting }
  if hasConversationId then
    match dbToken with
    | some t =>
      if t ≠ "" then
        connectCustomerRequest outcome { s1 with customerAccessToken := t }
      else ({ s1 with customerState := .requiresAuth }, [])
    | none => ({ s1 with customerState := .requiresAuth }, [])
  else
    connectCustomerRequest outcome s1

/-- connectToStorefrontServer (lines 251-287): on success store the
formatted tools, rebuild the merged list and mark ready; on failure mark
failed and rethrow the error (line 285) - the thrown error is the
Except.error result. -/
def connectToStorefrontServer
    (outcome : Except CallErr (Option (List RawTool)))
    (s : ClientState) : ClientState × Except CallErr (List Tool) :=
  let s1 := { s with storefrontState := ConnState.connecting }
  match outcome with
  | .ok toolsData =>
    let storefrontTools := formatToolsData (toolsData.getD [])
    ({ s1 with storefrontTools := storefrontTools,
               tools := storefrontTools ++ s1.customerTools,
               storefrontState := .ready }, .ok storefrontTools)
  | .error e => ({ s1 with storefrontState := .failed }, .error e)

/-- The aggregate returned by connectToAllServers (lines 309-313). -/
structure ConnectAllResult where
  storefront : List Tool
  customer : List Tool
  totalTools : Nat
deriving Repr

/-- connectToAllServers (lines 292-314): both connects run under
Promise.allSettled, so a storefront rejection is caught and contributes an
empty list, and neither outcome cancels the other.  Each endpoint's state
mutations form one synchronous block after its awaits, so the observable
interleavings are captured by which endpoint's block runs first
(`storefrontFirst`).  totalTools is this.tools.length read after both
settle. -/
def connectToAllServers
    (sfOutcome : Except CallErr (Option (List RawTool)))
    (hasConversationId : Bool) (dbToken : Option String)
    (custOutcome : Except CallErr (Option (List RawTool)))
    (storefrontFirst : Bool) (s : ClientState) :
    ClientState × ConnectAllResult :=
  if storefrontFirst then
    let r1 := connectToStorefrontServer sfOutcome s
    let r2 := connectToCustomerServer hasConversationId dbToken custOutcome r1.1
    (r2.1,
      { storefront := match r1.2 with | .ok ts => ts | .error _ => [],
        customer := r2.2, totalTools := r2.1.tools.length })
  else
    let r1 := connectToCustomerServer hasConversationId dbToken custOutcome s
    let r2 := connectToStorefrontServer sfOutcome r1.1
    (r2.1,
      { storefront := match r2.2 with | .ok ts => ts | .error _ => [],
        customer := r1.2, totalTools := r2.1.tools.length })

/-- disconnect (lines 477-488): reset both states and clear all three
tool lists (the listener registry is not modelled). -/
def disconnect (s : ClientState) : ClientState :=
  { s with storefrontState := .disconnected, customerState := .disconnected,
           tools := [], customerTools := [], storefrontTools := [] }

/-- A structured tool-call result: a success payload (response.result, or
the whole response when result is falsy), or {error: {type, data}}. -/
inductive ToolCallResult where
  | ok (payload : Json)
  | err (errorType : String) (data : String)
deriving Repr

/-- callStorefrontTool (lines 347-373): forward the outcome of the
retried tools/call request; any thrown error is caught and converted to a
structured internal_error result. -/
def callStorefrontTool (toolName : String)
    (outcome : Except CallErr Json) : ToolCallResult :=
  match outcome with
  | .ok payload => .ok payload
  | .error e =>
    .err "internal_error"
      ("Error calling tool " ++ toolName ++ ": " ++ e.message)

/-- The markdown message built at line 423, embedding the recovery URL
produced by generateAuthUrl. -/
def authMessage (url : String) : String :=
  "You need to authorize the app to access your customer data. " ++
  "[Click here to authorize](" ++ url ++ ")"

/-- callCustomerTool (lines 378-439): on a thrown error whose status is
401, generate the authorization URL (`authUrl` is the url field of the
generateAuthUrl response) and return an auth_required result carrying the
markdown message; every other thrown error reaches the outer catch and
becomes a structured internal_error result.  The token bookkeeping of
lines 385-399 only affects the request headers, which are part of the
request whose final outcome is the `outcome` argument. -/
def callCustomerTool (toolName : String) (authUrl : String)
    (outcome : Except CallErr Json) : ToolCallResult :=
  match outcome with
  | .ok payload => .ok payload
  | .error e =>
    match e with
    | .http 401 _ => .err "auth_required" (authMessage authUrl)
    | _ =>
      .err "internal_error"
        ("Error calling tool " ++ toolName ++ ": " ++ e.message)

/-- Which endpoint a callTool invocation dispatches to. -/
inductive ToolCallRoute where
  | customer
  | storefront
  | notFound
deriving DecidableEq, Repr

/-- The routing rule of callTool (lines 319-342): scoped (customer) list
first, then the storefront list, else no dispatch. -/
def callToolRoute (s : ClientState) (toolName : String) : ToolCallRoute :=
  if s.customerTools.any (fun t => t.name = toolName) then .customer
  else if s.storefrontTools.any (fun t => t.name = toolName) then .storefront
  else .notFound

/-- callTool (lines 319-342), with the outcomes of the underlying
endpoint requests as arguments: dispatch per `callToolRoute`, or return
the structured tool_not_found error. -/
def callTool (s : ClientState) (toolName : String) (authUrl : String)
    (custOutcome sfOutcome : Except CallErr Json) : ToolCallResult :=
  if s.customerTools.any (fun t => t.name = toolName) then
    callCustomerTool toolName authUrl custOutcome
  else if s.storefrontTools.any (fun t => t.name = toolName) then
    callStorefrontTool toolName sfOutcome
  else
    .err "tool_not_found"
      ("Tool " ++ toolName ++ " not found in any connected MCP server")

/-- Claim C1: callTool routes by scoped-endpoint priority - a name in the
customer (scoped) tool list dispatches to the customer endpoint even when
the storefront list also contains it; otherwise a storefront name
dispatches to the storefront endpoint; otherwise the structured
tool_not_found error is returned. -/
theorem C1_callTool_routing (s : ClientState) (toolName authUrl : String)
    (custOutcome sfOutcome : Except CallErr Json) :
    (s.customerTools.any (fun t => t.name = toolName) = true →
      callToolRoute s toolName = .customer ∧
      callTool s toolName authUrl custOutcome sfOutcome
        = callCustomerTool toolName authUrl custOutcome) ∧
    (s.customerTools.any (fun t => t.name = toolName) = false →
      s.storefrontTools.any (fun t => t.name = toolName) = true →
      callToolRoute s toolName = .storefront ∧
      callTool s toolName authUrl custOutcome sfOutcome
        = callStorefrontTool toolName sfOutcome) ∧
    (s.customerTools.any (fun t => t.name = toolName) = false →
      s.storefrontTools.any (fun t => t.name = toolName) = false →
      callToolRoute s toolName = .notFound ∧
      callTool s toolName authUrl custOutcome sfOutcome
        = .err "tool_not_found"
            ("Tool " ++ toolName ++ " not found in any connected MCP server")) := by
  refine ⟨fun h => ?_, fun h1 h2 => ?_, fun h1 h2 => ?_⟩
  · exact ⟨by simp [callToolRoute, h], by simp [callTool, h]⟩
  · exact ⟨by simp [callToolRoute, h1, h2], by simp [callTool, h1, h2]⟩
  · exact ⟨by simp [callToolRoute, h1, h2], by simp [callTool, h1, h2]⟩

/-- A client state with search_orders registered on both endpoints and
search_shop_catalog on the storefront endpoint only. -/
def c1State : ClientState :=
  { mkClient with
    customerTools :=
      [{ name := "search_orders", description := "scoped", input_schema := .null }],
    storefrontTools :=
      [{ name := "search_orders", description := "primary", input_schema := .null },
       { name := "search_shop_catalog", description := "catalog", input_schema := .null }] }

/-- Witness for C1: on `c1State`, the duplicated name routes to the
scoped endpoint, the storefront-only name routes to the storefront
endpoint, and an unknown name yields the tool_not_found error. -/
theorem C1_callTool_routing_witness :
    callToolRoute c1State "search_orders" = .customer ∧
    callToolRoute c1State "search_shop_catalog" = .storefront ∧
    callTool c1State "update_cart" "u" (.ok .null) (.ok .null)
      = .err "tool_not_found"
          "Tool update_cart not found in any connected MCP server" := by
  refine ⟨?_, ?_, ?_⟩
  · exact ((C1_callTool_routing c1State "search_orders" "u"
      (.ok .null) (.ok .null)).1 rfl).1
  · exact ((C1_callTool_routing c1State "search_shop_catalog" "u"
      (.ok .null) (.ok .null)).2.1 rfl rfl).1
  · exact ((C1_callTool_routing c1State "update_cart" "u"
      (.ok .null) (.ok .null)).2.2 rfl rfl).2

/-- A concrete recovery URL for the C3 counterexample. -/
def c3Url : String := "https://shop.example/authorize?id=1"

/-- C3 counterexample: the claim says the data field of the auth_required
result is the recovery URL.  In the source (line 423) the data field is a
markdown message that embeds the URL, so it differs from the URL itself. -/
theorem C3_counterexample :
    callCustomerTool "get_orders" c3Url (.error (.http 401 "Unauthorized"))
      = .err "auth_required" (authMessage c3Url) ∧
    authMessage c3Url ≠ c3Url := by
  exact ⟨rfl, by decide⟩

/-- Claim C3 (amended): when a scoped-endpoint tool call ultimately fails
with HTTP status 401, callCustomerTool does not raise - it invokes the
authorization-link generator and returns a structured auth_required
result whose data field is the authorization message embedding the
recovery URL. -/
theorem C3_auth_required (toolName authUrl errorText : String) :
    callCustomerTool toolName authUrl (.error (.http 401 errorText))
      = .err "auth_required" (authMessage authUrl) ∧
    authMessage authUrl
      = "You need to authorize the app to access your customer data. " ++
        "[Click here to authorize](" ++ authUrl ++ ")" :=
  ⟨rfl, rfl⟩

/-- C5 counterexample: the claim says connect never throws for either
endpoint and returns an empty tool list on failure.  The storefront
connect (line 285) rethrows the caught error after setting its state to
failed, so the caller observes a thrown error, not an empty list. -/
theorem C5_counterexample :
    (connectToStorefrontServer (.error (.transport "connection refused"))
        mkClient).2
      = .error (.transport "connection refused") ∧
    (connectToStorefrontServer (.error (.transport "connection refused"))
        mkClient).1.storefrontState = .failed :=
  ⟨rfl, rfl⟩

/-- Claim C5 (amended): the customer connect never throws - on a request
failure it sets the customer state to failed and returns an empty list,
and when no usable stored token exists it sets requires-auth and returns
an empty list; on success it sets ready and merges the listed tools.  The
storefront connect merges and sets ready on success, but on failure it
sets failed and rethrows the error instead of returning an empty list. -/
theorem C5_connect_endpoints :
    (∀ (s : ClientState) (t : String), t ≠ "" →
      (∀ toolsData,
        connectToCustomerServer true (some t) (.ok toolsData) s
          = ({ s with customerState := .ready,
                      customerAccessToken := t,
                      customerTools := formatToolsData (toolsData.getD []),
                      tools := s.storefrontTools
                        ++ formatToolsData (toolsData.getD []) },
             formatToolsData (toolsData.getD []))) ∧
      (∀ e, connectToCustomerServer true (some t) (.error e) s
          = ({ s with customerState := .failed,
                      customerAccessToken := t }, []))) ∧
    (∀ (s : ClientState) (outcome),
      connectToCustomerServer true none outcome s
        = ({ s with customerState := .requiresAuth }, [])) ∧
    (∀ (s : ClientState) toolsData,
      connectToStorefrontServer (.ok toolsData) s
        = ({ s with storefrontState := .ready,
                    storefrontTools := formatToolsData (toolsData.getD []),
                    tools := formatToolsData (toolsData.getD [])
                      ++ s.customerTools },
           .ok (formatToolsData (toolsData.getD [])))) ∧
    (∀ (s : ClientState) (e : CallErr),
      connectToStorefrontServer (.error e) s
        = ({ s with storefrontState := .failed }, .error e)) := by
  refine ⟨fun s t ht => ⟨fun toolsData => ?_, fun e => ?_⟩,
    fun s outcome => ?_, fun s toolsData => ?_, fun s e => ?_⟩
  · simp [connectToCustomerServer, connectCustomerRequest, ht]
  · simp [connectToCustomerServer, connectCustomerRequest, ht]
  · simp [connectToCustomerServer]
  · simp [connectToStorefrontServer]
  · simp [connectToStorefrontServer]

/-- Witness for C5: the amended characterization applied at a fresh
client with a stored token, on a failing customer request. -/
theorem C5_connect_endpoints_witness :
    connectToCustomerServer true (some "shcat_token")
        (.error (.transport "connection refused")) mkClient
      = ({ mkClient with customerState := .failed,
                         customerAccessToken := "shcat_token" }, []) :=
  (C5_connect_endpoints.1 mkClient "shcat_token" (by decide)).2
    (.transport "connection refused")

/-- Claim C6: connectToAllServers connects the endpoints independently;
when exactly one endpoint fails, the other endpoint's tools fill the
merged registry and its slot of the aggregate, the failing endpoint
contributes an empty list, totalTools counts only the surviving tools,
and the states end ready for the survivor and failed for the failure - in
both settlement orders. -/
theorem C6_connectAll_independent :
    (∀ (toolsData : Option (List RawTool)) (e : CallErr) (t : String)
        (first : Bool), t ≠ "" →
      connectToAllServers (.ok toolsData) true (some t) (.error e) first mkClient
        = ({ mkClient with
               storefrontState := .ready, customerState := .failed,
               customerAccessToken := t,
               storefrontTools := formatToolsData (toolsData.getD []),
               tools := formatToolsData (toolsData.getD []) },
           { storefront := formatToolsData (toolsData.getD []),
             customer := [],
             totalTools := (formatToolsData (toolsData.getD [])).length })) ∧
    (∀ (toolsData : Option (List RawTool)) (e : CallErr) (t : String)
        (first : Bool), t ≠ "" →
      connectToAllServers (.error e) true (some t) (.ok toolsData) first mkClient
        = ({ mkClient with
               storefrontState := .failed, customerState := .ready,
               customerAccessToken := t,
               customerTools := formatToolsData (toolsData.getD []),
               tools := formatToolsData (toolsData.getD []) },
           { storefront := [],
             customer := formatToolsData (toolsData.getD []),
             totalTools := (formatToolsData (toolsData.getD [])).length })) := by
  constructor <;> intro toolsData e t first ht <;> cases first <;>
    simp [connectToAllServers, connectToStorefrontServer,
      connectToCustomerServer, connectCustomerRequest, mkClient, ht]

/-- The raw tool listing used by the C6 witness. -/
def c6Raw : List RawTool :=
  [{ name := "A", description := "a", inputSchema := none, input_schema := none },
   { name := "B", description := "b", inputSchema := none, input_schema := none }]

/-- Witness for C6: primary endpoint succeeds with tools A and B, scoped
endpoint fails - the merged registry is exactly the storefront listing,
the aggregate reports two tools, and the states end ready and failed. -/
theorem C6_connectAll_independent_witness :
    connectToAllServers (.ok (some c6Raw)) true (some "tok")
        (.error (.transport "connection refused")) true mkClient
      = ({ mkClient with
             storefrontState := .ready, customerState := .failed,
             customerAccessToken := "tok",
             storefrontTools :=
               [{ name := "A", description := "a", input_schema := .null },
                { name := "B", description := "b", input_schema := .null }],
             tools :=
               [{ name := "A", description := "a", input_schema := .null },
                { name := "B", description := "b", input_schema := .null }] },
         { storefront :=
             [{ name := "A", description := "a", input_schema := .null },
              { name := "B", description := "b", input_schema := .null }],
           customer := [], totalTools := 2 }) := by
  have h := C6_connectAll_independent.1 (some c6Raw)
    (.transport "connection refused") "tok" true (by decide)
  exact h.trans rfl

/-- The public operations of the client, each carrying the outcomes of
its underlying requests. -/
inductive ClientOp where
  | opConnectStorefront (outcome : Except CallErr (Option (List RawTool)))
  | opConnectCustomer (hasConversationId : Bool) (dbToken : Option String)
      (outcome : Except CallErr (Option (List RawTool)))
  | opConnectAll (sfOutcome : Except CallErr (Option (List RawTool)))
      (hasConversationId : Bool) (dbToken : Option String)
      (custOutcome : Except CallErr (Option (List RawTool)))
      (storefrontFirst : Bool)
  | opDisconnect

/-- The state after one public operation. -/
def applyOp (s : ClientState) : ClientOp → ClientState
  | .opConnectStorefront o => (connectToStorefrontServer o s).1
  | .opConnectCustomer h d o => (connectToCustomerServer h d o s).1
  | .opConnectAll so h d co first => (connectToAllServers so h d co first s).1
  | .opDisconnect => disconnect s

/-- The state of a fresh client after any sequence of public operations. -/
def runOps (ops : List ClientOp) : ClientState :=
  ops.foldl applyOp mkClient

/-- The customer connect preserves the merged-list shape. -/
theorem connectToCustomerServer_merged (h : Bool) (d : Option String)
    (o : Except CallErr (Option (List RawTool))) (s : ClientState)
    (hs : s.tools = s.storefrontTools ++ s.customerTools) :
    ((connectToCustomerServer h d o s).1).tools
      = ((connectToCustomerServer h d o s).1).storefrontTools
        ++ ((connectToCustomerServer h d o s).1).customerTools := by
  cases h with
  | false =>
    cases o <;> simp [connectToCustomerServer, connectCustomerRequest, hs]
  | true =>
    cases d with
    | none => simp [connectToCustomerServer, hs]
    | some t =>
      by_cases ht : t ≠ ""
      · cases o <;>
          simp [connectToCustomerServer, connectCustomerRequest, ht, hs]
      · simp [connectToCustomerServer, ht, hs]

/-- The storefront connect preserves the merged-list shape. -/
theorem connectToStorefrontServer_merged
    (o : Except CallErr (Option (List RawTool))) (s : ClientState)
    (hs : s.tools = s.storefrontTools ++ s.customerTools) :
    ((connectToStorefrontServer o s).1).tools
      = ((connectToStorefrontServer o s).1).storefrontTools
        ++ ((connectToStorefrontServer o s).1).customerTools := by
  cases o <;> simp [connectToStorefrontServer, hs]

/-- Every public operation preserves the merged-list shape. -/
theorem applyOp_merged (s : ClientState) (op : ClientOp)
    (hs : s.tools = s.storefrontTools ++ s.customerTools) :
    (applyOp s op).tools
      = (applyOp s op).storefrontTools ++ (applyOp s op).customerTools := by
  cases op with
  | opConnectStorefront o =>
    exact connectToStorefrontServer_merged o s hs
  | opConnectCustomer h d o =>
    exact connectToCustomerServer_merged h d o s hs
  | opConnectAll so h d co first =>
    cases first with
    | true =>
      have h1 := connectToStorefrontServer_merged so s hs
      have h2 := connectToCustomerServer_merged h d co
        (connectToStorefrontServer so s).1 h1
      simpa [applyOp, connectToAllServers] using h2
    | false =>
      have h1 := connectToCustomerServer_merged h d co s hs
      have h2 := connectToStorefrontServer_merged so
        (connectToCustomerServer h d co s).1 h1
      simpa [applyOp, connectToAllServers] using h2
  | opDisconnect => simp [applyOp, disconnect]

/-- `find?` distributes over list append via the first hit. -/
theorem findFirst_append {α : Type} (p : α → Bool) :
    ∀ (l1 l2 : List α),
      (l1 ++ l2).find? p = ((l1.find? p).orElse (fun _ => l2.find? p))
  | [], l2 => by simp
  | a :: t, l2 => by
    by_cases hp : p a = true
    · simp [List.find?_cons_of_pos _ hp, Option.orElse]
    · have hp2 : ¬ p a = true := hp
      simp [List.find?_cons_of_neg _ hp2, findFirst_append p t l2]

/-- Claim C10: after any sequence of public client operations starting
from a fresh client, the merged tool list equals the storefront list
concatenated with the customer list, in that order; consequently a lookup
by predicate over the merged list finds the storefront entry first and
falls back to the customer entry, so a duplicated name is listed
storefront-first even though callTool routing prefers the scoped
endpoint. -/
theorem C10_merged_registry (ops : List ClientOp) :
    (runOps ops).tools
      = (runOps ops).storefrontTools ++ (runOps ops).customerTools ∧
    ∀ p, ((runOps ops).tools.find? p)
      = (((runOps ops).storefrontTools.find? p).orElse
          (fun _ => (runOps ops).customerTools.find? p)) := by
  have hmain : ∀ (l : List ClientOp) (s : ClientState),
      s.tools = s.storefrontTools ++ s.customerTools →
      (l.foldl applyOp s).tools
        = (l.foldl applyOp s).storefrontTools
          ++ (l.foldl applyOp s).customerTools := by
    intro l
    induction l with
    | nil => intro s hs; exact hs
    | cons op rest ih =>
      intro s hs
      exact ih (applyOp s op) (applyOp_merged s op hs)
  have h1 : (runOps ops).tools
      = (runOps ops).storefrontTools ++ (runOps ops).customerTools :=
    hmain ops mkClient rfl
  exact ⟨h1, fun p => by rw [h1, findFirst_append]⟩

/-! ## The conversation orchestrator (src/app/db-cloudflare.server.js) -/

/-- One tool call extracted from a model turn: the function name and its
parsed JSON arguments (the adapters stringify the model arguments and the
orchestrator parses them back at line 434). -/
structure ToolCall where
  name : String
  args : Json
deriving Repr

/-- Token usage carried by the terminal done event. -/
structure Usage where
  prompt_tokens : Nat
  completion_tokens : Nat
  total_tokens : Nat
deriving Repr

/-- The tagged events yielded by a streamResponse generator: content
chunks, one batch of tool calls, the terminal done event (whose text
field is absent for the Claude adapter and present for the Gemini
adapter), and the error event. -/
inductive StreamEvent where
  | content (text : String)
  | toolCalls (calls : List ToolCall)
  | done (text : Option String) (usage : Usage)
  | error (msg : String)
deriving Repr

/-- Truthiness of the property read `j[k]` (absent is falsy). -/
def jsFieldTruthy (j : Json) (k : String) : Bool :=
  match j.objLookup k with
  | some v => jsTruthy v
  | none => false

/-- Property assignment on a JSON object: replace the first occurrence in
place, or append the key. -/
def JObject.setField : JObject → String → Json → JObject
  | .nil, k, v => .cons k v .nil
  | .cons k0 v0 t, k, v =>
    if k0 = k then .cons k0 v t else .cons k0 v0 (JObject.setField t k v)

/-- Property assignment `j[k] = v` (a non-object target is left alone;
the orchestrator only assigns into parsed argument objects). -/
def Json.setField : Json → String → Json → Json
  | .obj kvs, k, v => .obj (kvs.setField k v)
  | j, _, _ => j

/-- The default-argument injection of lines 437-440: a
search_shop_catalog call whose context argument is missing or falsy gets
a default context string. -/
def injectDefaults (toolName : String) (toolArgs : Json) : Json :=
  if toolName = "search_shop_catalog" && !(jsFieldTruthy toolArgs "context") then
    toolArgs.setField "context" (.str "User is looking for products")
  else toolArgs

/-- The observable actions of one orchestrator turn, in order: chunks
forwarded to the client, the tool_use notification, the tool execution
through the MCP client (with the injected arguments), the new_message
signal, the creation of a continuation generator (a model re-entry), the
persisted assistant message, and a forwarded error. -/
inductive LogEntry where
  | sentChunk (text : String)
  | sentToolUse (toolName : String)
  | executedTool (name : String) (args : Json)
  | sentNewMessage
  | modelReentry
  | savedAssistant (content : String)
  | sentError (msg : String)
deriving Repr

/-- The per-call body of the tool_calls loop (lines 432-474): notify,
inject defaults, execute, signal. -/
def execToolCall (c : ToolCall) : List LogEntry :=
  [.sentToolUse c.name,
   .executedTool c.name (injectDefaults c.name c.args),
   .sentNewMessage]

/-- The continuation loop of lines 489-510, over the events of the fresh
continuation generator: content chunks are forwarded; done persists the
assistant message when chunk.content is truthy and breaks; error forwards
and breaks; a tool_calls event matches no branch and is skipped - it is
neither executed nor does it start another generator. -/
def processContinuation : List StreamEvent → List LogEntry
  | [] => []
  | .content t :: rest => .sentChunk t :: processContinuation rest
  | .toolCalls _ :: rest => processContinuation rest
  | .done txt _ :: _ =>
    match txt with
    | some t => if t ≠ "" then [.savedAssistant t] else []
    | none => []
  | .error m :: _ => [.sentError m]

/-- The outer event loop of handleChatSession (lines 423-530): content is
forwarded; a tool_calls batch is executed call by call in order and,
when the batch is nonempty, followed by exactly one continuation pass
over `cont` (lines 478-511); done persists the assistant message when
chunk.content is truthy and continues the loop (no break at line 521);
error forwards and breaks. -/
def processTurn (cont : List StreamEvent) : List StreamEvent → List LogEntry
  | [] => []
  | .content t :: rest => .sentChunk t :: processTurn cont rest
  | .toolCalls tcs :: rest =>
    (tcs.map execToolCall).flatten
      ++ (if tcs.isEmpty then []
          else .modelReentry :: processContinuation cont)
      ++ processTurn cont rest
  | .done txt _ :: rest =>
    (match txt with
     | some t => if t ≠ "" then [.savedAssistant t] else []
     | none => [])
      ++ processTurn cont rest
  | .error m :: _ => [.sentError m]

/-- The event sequence yielded by the Claude adapter's streamResponse
(src/unnamed/part_002, lines 104-138): one content event when the
accumulated text is truthy, one tool_calls event when any tool_use blocks
arrived, then a done event carrying only usage - no content field. -/
def claudeStreamEvents (fullResponse : String) (toolCalls : List ToolCall)
    (u : Usage) : List StreamEvent :=
  (if fullResponse ≠ "" then [.content fullResponse] else [])
    ++ (if toolCalls.isEmpty then [] else [.toolCalls toolCalls])
    ++ [.done none u]

/-- The event sequence yielded by the Gemini adapter's streamResponse
(gemini.server.js lines 88-173): a content event per truthy chunk text,
one tool_calls event when any function calls arrived, then a done event
carrying the accumulated full response and zeroed usage. -/
def geminiStreamEvents (chunks : List String) (toolCalls : List ToolCall) :
    List StreamEvent :=
  ((chunks.filter (fun c => c ≠ "")).map StreamEvent.content)
    ++ (if toolCalls.isEmpty then [] else [.toolCalls toolCalls])
    ++ [.done (some (String.join (chunks.filter (fun c => c ≠ ""))))
          ⟨0, 0, 0⟩]

/-- Number of model re-entries recorded in a log. -/
def reentryCount (log : List LogEntry) : Nat :=
  log.countP (fun e => match e with | .modelReentry => true | _ => false)

/-- The tool executions recorded in a log, in order. -/
def executedTools (log : List LogEntry) : List (String × Json) :=
  log.filterMap (fun e => match e with
    | .executedTool n a => some (n, a)
    | _ => none)

/-- The assistant messages persisted during a log, in order. -/
def savedAssistants (log : List LogEntry) : List String :=
  log.filterMap (fun e => match e with
    | .savedAssistant c => some c
    | _ => none)

/-- Whether an event is the error event that breaks the outer loop. -/
def isErrorEvent : StreamEvent → Bool
  | .error _ => true
  | _ => false

/-- The prefix of the outer events actually processed (the loop breaks at
the first error event). -/
def processedPrefix (events : List StreamEvent) : List StreamEvent :=
  events.takeWhile (fun e => !isErrorEvent e)

/-- Number of nonempty tool_calls batches in an event sequence. -/
def nonemptyBatchCount (events : List StreamEvent) : Nat :=
  events.countP (fun e => match e with
    | .toolCalls tcs => !tcs.isEmpty
    | _ => false)

/-- All tool calls of the batches of an event sequence, in order, with
the orchestrator's default-argument injection applied. -/
def batchTools (events : List StreamEvent) : List (String × Json) :=
  (events.map (fun e => match e with
    | .toolCalls tcs =>
      tcs.map (fun c => (c.name, injectDefaults c.name c.args))
    | _ => [])).flatten

/-- The concatenation of the text of the content events of a sequence. -/
def contentConcat (events : List StreamEvent) : String :=
  String.join (events.filterMap (fun e => match e with
    | .content t => some t
    | _ => none))

/-- The continuation loop never re-enters the model and never executes a
tool, whatever events the continuation generator yields. -/
theorem processContinuation_counts :
    ∀ (cont : List StreamEvent),
      reentryCount (processContinuation cont) = 0 ∧
      executedTools (processContinuation cont) = []
  | [] => by simp [processContinuation, reentryCount, executedTools]
  | .content t :: rest => by
    have ih := processContinuation_counts rest
    simp [processContinuation, reentryCount, executedTools,
      List.countP_cons] at ih ⊢
    exact ih
  | .toolCalls tcs :: rest => by
    have ih := processContinuation_counts rest
    simpa [processContinuation] using ih
  | .done txt u :: rest => by
    cases txt with
    | some t =>
      by_cases ht : t ≠ "" <;>
        simp [processContinuation, reentryCount, executedTools, ht]
    | none => simp [processContinuation, reentryCount, executedTools]
  | .error m :: rest => by
    simp [processContinuation, reentryCount, executedTools]

/-- One tool-call body records no re-entry and exactly its own
execution, with the injected arguments. -/
theorem execToolCall_counts (c : ToolCall) :
    reentryCount (execToolCall c) = 0 ∧
    executedTools (execToolCall c)
      = [(c.name, injectDefaults c.name c.args)] := by
  constructor <;> rfl

/-- A whole batch records no re-entry and exactly its calls, in order. -/
theorem batch_counts :
    ∀ (tcs : List ToolCall),
      reentryCount ((tcs.map execToolCall).flatten) = 0 ∧
      executedTools ((tcs.map execToolCall).flatten)
        = tcs.map (fun c => (c.name, injectDefaults c.name c.args))
  | [] => by simp [reentryCount, executedTools]
  | c :: rest => by
    have ih := batch_counts rest
    have hc := execToolCall_counts c
    simp only [List.map_cons, List.flatten_cons, reentryCount,
      executedTools, List.countP_append, List.filterMap_append] at ih hc ⊢
    exact ⟨by rw [hc.1, ih.1], by rw [hc.2, ih.2]; rfl⟩

/-- Claim C2: for every model turn, the orchestrator re-enters the model
exactly once per nonempty tool_calls batch it processes (the prefix up to
the first error event), executes exactly the calls of those batches in
order, and the continuation pass itself neither executes tool_calls
events it yields nor triggers any further model re-entry. -/
theorem C2_single_reentry (outer cont : List StreamEvent) :
    reentryCount (processTurn cont outer)
      = nonemptyBatchCount (processedPrefix outer) ∧
    executedTools (processTurn cont outer)
      = batchTools (processedPrefix outer) ∧
    reentryCount (processContinuation cont) = 0 ∧
    executedTools (processContinuation cont) = [] ∧
    (∀ (tcs : List ToolCall) (rest : List StreamEvent),
      tcs.isEmpty = false →
      processTurn cont (.toolCalls tcs :: rest)
        = (tcs.map execToolCall).flatten
          ++ ((LogEntry.modelReentry :: processContinuation cont)
          ++ processTurn cont rest)) := by
  have hcont := processContinuation_counts cont
  have main : ∀ (evs : List StreamEvent),
      reentryCount (processTurn cont evs)
        = nonemptyBatchCount (processedPrefix evs) ∧
      executedTools (processTurn cont evs)
        = batchTools (processedPrefix evs) := by
    intro evs
    induction evs with
    | nil => exact ⟨rfl, rfl⟩
    | cons ev rest ih =>
      cases ev with
      | content t =>
        constructor
        · simpa [processTurn, processedPrefix, isErrorEvent,
            nonemptyBatchCount, reentryCount, List.countP_cons] using ih.1
        · simpa [processTurn, processedPrefix, isErrorEvent, batchTools,
            executedTools] using ih.2
      | toolCalls tcs =>
        have hb := batch_counts tcs
        by_cases htcs : tcs.isEmpty
        · have htnil : tcs = [] := List.isEmpty_iff.mp htcs
          subst htnil
          constructor
          · simpa [processTurn, processedPrefix, isErrorEvent,
              nonemptyBatchCount, reentryCount, List.countP_cons,
              List.countP_append] using ih.1
          · simpa [processTurn, processedPrefix, isErrorEvent, batchTools,
              executedTools, List.filterMap_append] using ih.2
        · have e1 : processTurn cont (StreamEvent.toolCalls tcs :: rest)
              = (tcs.map execToolCall).flatten
                ++ ((LogEntry.modelReentry :: processContinuation cont)
                ++ processTurn cont rest) := by
            simp [processTurn, htcs]
          constructor
          · rw [e1]
            have hsplit : reentryCount ((tcs.map execToolCall).flatten
                  ++ ((LogEntry.modelReentry :: processContinuation cont)
                  ++ processTurn cont rest))
                = reentryCount ((tcs.map execToolCall).flatten)
                  + (reentryCount
                      (LogEntry.modelReentry :: processContinuation cont)
                  + reentryCount (processTurn cont rest)) := by
              simp only [reentryCount, List.countP_append, Nat.add_assoc]
            have hm : reentryCount
                  (LogEntry.modelReentry :: processContinuation cont)
                = reentryCount (processContinuation cont) + 1 := by
              simp [reentryCount, List.countP_cons]
            have hp : nonemptyBatchCount
                  (processedPrefix (StreamEvent.toolCalls tcs :: rest))
                = nonemptyBatchCount (processedPrefix rest) + 1 := by
              simp [processedPrefix, isErrorEvent, nonemptyBatchCount,
                List.countP_cons, htcs]
            rw [hsplit, hb.1, hm, hcont.1, ih.1, hp]
            omega
          · rw [e1]
            have hsplit : executedTools ((tcs.map execToolCall).flatten
                  ++ ((LogEntry.modelReentry :: processContinuation cont)
                  ++ processTurn cont rest))
                = executedTools ((tcs.map execToolCall).flatten)
                  ++ (executedTools
                      (LogEntry.modelReentry :: processContinuation cont)
                  ++ executedTools (processTurn cont rest)) := by
              simp [executedTools, List.filterMap_append]
            have hm : executedTools
                  (LogEntry.modelReentry :: processContinuation cont)
                = [] := by
              simp [executedTools, List.filterMap_cons] at hcont ⊢
              exact hcont.2
            have hp : batchTools
                  (processedPrefix (StreamEvent.toolCalls tcs :: rest))
                = tcs.map (fun c => (c.name, injectDefaults c.name c.args))
                  ++ batchTools (processedPrefix rest) := by
              simp [processedPrefix, isErrorEvent, batchTools]
            rw [hsplit, hb.2, hm, ih.2, hp]
            simp
      | done txt u =>
        constructor
        · have h1 := ih.1
          cases txt with
          | some t =>
            by_cases ht : t ≠ "" <;>
              simpa [processTurn, processedPrefix, isErrorEvent,
                nonemptyBatchCount, reentryCount, List.countP_cons,
                List.countP_append, ht] using h1
          | none =>
            simpa [processTurn, processedPrefix, isErrorEvent,
              nonemptyBatchCount, reentryCount, List.countP_cons] using h1
        · have h2 := ih.2
          cases txt with
          | some t =>
            by_cases ht : t ≠ "" <;>
              simpa [processTurn, processedPrefix, isErrorEvent, batchTools,
                executedTools, List.filterMap_append, ht] using h2
          | none =>
            simpa [processTurn, processedPrefix, isErrorEvent, batchTools,
              executedTools] using h2
      | error m =>
        constructor
        · simp [processTurn, processedPrefix, isErrorEvent,
            nonemptyBatchCount, reentryCount]
        · simp [processTurn, processedPrefix, isErrorEvent, batchTools,
            executedTools]
  refine ⟨(main outer).1, (main outer).2, hcont.1, hcont.2,
    fun tcs rest htcs => ?_⟩
  simp [processTurn, htcs]

/-- The usage numbers of the C9 run. -/
def c9Usage : Usage :=
  { prompt_tokens := 12, completion_tokens := 5, total_tokens := 17 }

/-- Claim C9 (code bug): a Claude turn that streams the text Hello with no
tool calls ends with a done event carrying no content field, so the
orchestrator - which persists chunk.content on done (line 517) - persists
no assistant message even though the concatenated turn text is nonempty;
the Gemini adapter, whose done event carries the accumulated text, yields
exactly the persistence the claim describes. -/
theorem C9_done_persistence :
    savedAssistants (processTurn [] (claudeStreamEvents "Hello" [] c9Usage))
      = [] ∧
    contentConcat (claudeStreamEvents "Hello" [] c9Usage) = "Hello" ∧
    savedAssistants (processTurn [] (geminiStreamEvents ["Hel", "lo"] []))
      = ["Hello"] ∧
    contentConcat (geminiStreamEvents ["Hel", "lo"] []) = "Hello" := by
  refine ⟨rfl, rfl, rfl, rfl⟩

/-- Zeroed usage for the C2 witness events. -/
def c2Usage : Usage :=
  { prompt_tokens := 0, completion_tokens := 0, total_tokens := 0 }

/-- The outer model turn of the C2 witness: some text, then a batch with
one search_shop_catalog call whose context argument is missing. -/
def c2Outer : List StreamEvent :=
  [StreamEvent.content "Looking",
   StreamEvent.toolCalls [{ name := "search_shop_catalog", args := Json.obj .nil }],
   StreamEvent.done none c2Usage]

/-- The continuation of the C2 witness, itself yielding a tool_calls
event (which must not be executed) before finishing. -/
def c2Cont : List StreamEvent :=
  [StreamEvent.toolCalls [{ name := "update_cart", args := Json.obj .nil }],
   StreamEvent.done (some "Done") c2Usage]

/-- Witness for C2: on `c2Outer` with continuation `c2Cont`, exactly one
re-entry happens, only the batch call is executed (with the default
context injected), and the ordering conjunct applies to the batch. -/
theorem C2_single_reentry_witness :
    reentryCount (processTurn c2Cont c2Outer) = 1 ∧
    executedTools (processTurn c2Cont c2Outer)
      = [("search_shop_catalog",
          Json.obj (.cons "context"
            (.str "User is looking for products") .nil))] ∧
    processTurn c2Cont
        (.toolCalls [{ name := "search_shop_catalog", args := Json.obj .nil }]
          :: [StreamEvent.done none c2Usage])
      = (([{ name := "search_shop_catalog",
             args := Json.obj .nil }].map execToolCall).flatten
          ++ ((LogEntry.modelReentry :: processContinuation c2Cont)
          ++ processTurn c2Cont [StreamEvent.done none c2Usage])) := by
  have h := C2_single_reentry c2Outer c2Cont
  exact ⟨h.1.trans rfl, (h.2.1).trans rfl,
    h.2.2.2.2 [{ name := "search_shop_catalog", args := Json.obj .nil }]
      [StreamEvent.done none c2Usage] rfl⟩

end ShopChatAgent
